import Mathlib

/-!
Verification of the South Carolina Gamecocks news-aggregation pipeline.

The definitions below are a shallow embedding of the Python sources:
  * `collect.py` — pattern lists, tier classifiers `_strict_keep` /
    `_fallback_keep`, normalizer `_normalize`, `_dedupe`, and the
    fallback-population logic of `collect`;
  * `server.py` — the substring classifier `_is_sc_football`, dedupe,
    and the sort/truncate publishing step of `fetch_now`.

Python's `re.search` is embedded by a small matcher covering exactly the
regex constructs the pattern lists use: literals, `\b` word boundaries,
`\s` classes, character classes, `?`/`*`/`+`, grouping and alternation.
Texts fed to the classifiers are lowercased by the caller in the source,
so the matcher compares characters literally.
-/

/-- Python `\s` (ASCII range): space, tab, newline, CR, vertical tab, form feed. -/
def wsChar (c : Char) : Bool :=
  c = ' ' || c = '\t' || c = '\n' || c = '\r' || c = Char.ofNat 11 || c = Char.ofNat 12

/-- Python `\w` (ASCII range): letters, digits, underscore. -/
def isWordChar (c : Char) : Bool :=
  c.isAlpha || c.isDigit || c = '_'

/-- Word-boundary test between the previously consumed character and the rest
of the input (`none` at the very start of the string). -/
def atBoundary (prev : Option Char) (next : List Char) : Bool :=
  let a := match prev with | none => false | some c => isWordChar c
  let b := match next with | [] => false | c :: _ => isWordChar c
  a != b

/-- Regular-expression ASTs for the subset of Python `re` syntax used by the
pattern lists of `collect.py`. -/
inductive RE where
  | eps : RE
  | chr : Char → RE
  | cls : (Char → Bool) → RE
  | wb : RE
  | seq : RE → RE → RE
  | alt : RE → RE → RE
  | starCls : (Char → Bool) → RE

/-- All the ways `(cls f)*` can consume a prefix of the input, together with
the last character consumed. -/
def starRun (f : Char → Bool) : Option Char → List Char → List (Option Char × List Char)
  | p, [] => [(p, [])]
  | p, c :: rest => (p, c :: rest) :: (if f c then starRun f (some c) rest else [])

/-- Match a regex at the current position; returns every possible pair of
(last consumed character, remaining input). -/
def mrun : RE → Option Char → List Char → List (Option Char × List Char)
  | RE.eps, p, s => [(p, s)]
  | RE.chr _, _, [] => []
  | RE.chr c, _, x :: xs => if x = c then [(some x, xs)] else []
  | RE.cls _, _, [] => []
  | RE.cls f, _, x :: xs => if f x then [(some x, xs)] else []
  | RE.wb, p, s => if atBoundary p s then [(p, s)] else []
  | RE.seq a b, p, s => (mrun a p s).flatMap (fun pr => mrun b pr.1 pr.2)
  | RE.alt a b, p, s => mrun a p s ++ mrun b p s
  | RE.starCls f, p, s => starRun f p s

/-- Does the regex match starting at some position of the input?  The previous
character is threaded through so `\b` behaves as in Python `re.search`. -/
def searchFrom (r : RE) : Option Char → List Char → Bool
  | p, [] => !(mrun r p []).isEmpty
  | p, x :: xs => !(mrun r p (x :: xs)).isEmpty || searchFrom r (some x) xs

/-- Embedding of Python `re.search(r, s) is not None`. -/
def reSearch (r : RE) (s : String) : Bool :=
  searchFrom r none s.data

/-- Literal string regex. -/
def rstr (s : String) : RE :=
  s.data.foldr (fun c r => RE.seq (RE.chr c) r) RE.eps

/-- Concatenation of a list of regexes. -/
def rcat (l : List RE) : RE :=
  l.foldr RE.seq RE.eps

/-- `r?` — zero or one occurrence. -/
def ropt (r : RE) : RE :=
  RE.alt r RE.eps

/-- `\s+` -/
def wsPlus : RE :=
  RE.seq (RE.cls wsChar) (RE.starCls wsChar)

/-- `\s*` -/
def wsStar : RE :=
  RE.starCls wsChar

/-- ASCII apostrophe, kept out of string literals. -/
def apos : Char :=
  Char.ofNat 39

/-- `collect.py` STRONG_ANY pattern list. -/
def STRONG_ANY : List RE :=
  [ rcat [RE.wb, rstr "gamecock", ropt (RE.chr 's'), RE.wb],
    rcat [RE.wb, rstr "shane", wsPlus, rstr "beamer", RE.wb],
    rcat [RE.wb, rstr "williams", RE.cls (fun c => c = '-' || c = ' '), rstr "brice", RE.wb],
    rcat [RE.wb, rstr "spurs", wsStar, rstr "up", RE.wb],
    rcat [RE.wb, rstr "gamecock", wsStar, rstr "central", RE.wb] ]

/-- `collect.py` SC_OR_USC pattern list. -/
def SC_OR_USC : List RE :=
  [ rcat [RE.wb, rstr "south", wsStar, rstr "carolina", RE.wb],
    rcat [RE.wb, rstr "usc", RE.wb] ]

/-- `collect.py` FOOTBALL_TERMS pattern list.  Alternation binds loosest in
Python regexes, so e.g. `\bquarterback|qb\b` is the alternation of
`\bquarterback` and `qb\b`. -/
def FOOTBALL_TERMS : List RE :=
  [ rcat [RE.wb, rstr "football", RE.wb],
    rcat [RE.wb, rstr "coach", ropt (RE.alt (rstr "es") (rstr "ing")), RE.wb],
    RE.alt (rcat [RE.wb, rstr "quarterback"]) (rcat [rstr "qb", RE.wb]),
    RE.alt (rcat [RE.wb, rstr "defense"]) (rcat [rstr "offense", RE.wb]),
    rcat [RE.wb, rstr "sec", RE.wb],
    rcat [RE.wb, rstr "ncaa", RE.wb],
    RE.alt (rcat [RE.wb, rstr "recruit"])
      (RE.alt (rcat [RE.wb, rstr "commit"]) (rcat [RE.wb, rstr "transfer portal", RE.wb])),
    rcat [RE.wb, rstr "spring game", RE.wb],
    rcat [RE.wb, rstr "depth chart", RE.wb] ]

/-- `collect.py` EXCLUDE_OTHER_SPORTS pattern list (`\bwomen'?s\b` built
without an apostrophe literal). -/
def EXCLUDE_OTHER_SPORTS : List RE :=
  [ rcat [RE.wb, rstr "women", ropt (RE.chr apos), RE.chr 's', RE.wb],
    rcat [RE.wb, rstr "wbb", RE.wb],
    rcat [RE.wb, rstr "basketball", RE.wb],
    rcat [RE.wb, rstr "baseball", RE.wb],
    rcat [RE.wb, rstr "softball", RE.wb],
    rcat [RE.wb, rstr "volleyball", RE.wb],
    rcat [RE.wb, rstr "soccer", RE.wb],
    rcat [RE.wb, rstr "track", RE.wb],
    rcat [RE.wb, rstr "golf", RE.wb] ]

/-- `collect.py` NEGATIVE_USC pattern list (guard against Southern Cal). -/
def NEGATIVE_USC : List RE :=
  [ rcat [RE.wb, rstr "trojans", RE.wb],
    rcat [RE.wb, rstr "lincoln", wsPlus, rstr "riley", RE.wb],
    rcat [RE.wb, rstr "usc", wsPlus, rstr "trojans", RE.wb] ]

/-- `collect.py` `_matches_any`. -/
def matchesAny (patterns : List RE) (text : String) : Bool :=
  patterns.any (fun p => reSearch p text)

/-- `collect.py` `_strict_keep`: primary rule, keep clearly Gamecocks
football content. -/
def strict_keep (text : String) : Bool :=
  if matchesAny EXCLUDE_OTHER_SPORTS text then false
  else if matchesAny STRONG_ANY text then true
  else if matchesAny SC_OR_USC text then
    if matchesAny NEGATIVE_USC text then false
    else if matchesAny FOOTBALL_TERMS text then true
    else false
  else false

/-- `collect.py` `_fallback_keep`: backup rule used if too few items. -/
def fallback_keep (text : String) : Bool :=
  if matchesAny EXCLUDE_OTHER_SPORTS text then false
  else if matchesAny STRONG_ANY text || matchesAny SC_OR_USC text then
    if matchesAny NEGATIVE_USC text then false
    else true
  else false

/-- The canonical item produced by `collect.py`'s `_normalize`. -/
structure CItem where
  source : String
  source_url : String
  title : String
  link : String
  summary : String
  published : String
deriving DecidableEq, Repr

/-- Python `str.lower()` (ASCII case mapping, applied per character). -/
def pyLower (s : String) : String :=
  ⟨s.data.map Char.toLower⟩

/-- Python `str.strip()`: drop leading and trailing whitespace. -/
def pyStrip (s : String) : String :=
  ⟨((s.data.dropWhile wsChar).reverse.dropWhile wsChar).reverse⟩

/-- `collect.py` line 143: `text = f"{it['title']} {it['summary']}".lower()`. -/
def itemText (it : CItem) : String :=
  pyLower (it.title ++ " " ++ it.summary)

/-- Identity key used by both `_dedupe` functions: the `link` when truthy
(non-empty), else the pair `(title, source)`.  A string key and a pair key
never collide, matching Python where a `str` never equals a `tuple`. -/
inductive DKey where
  | link : String → DKey
  | pair : String → String → DKey
deriving DecidableEq, Repr

/-- `k = it["link"] or (it["title"], it["source"])`. -/
def dkey (it : CItem) : DKey :=
  if it.link = "" then DKey.pair it.title it.source else DKey.link it.link

/-- Single pass of `_dedupe` with its seen-key set (modelled as a list). -/
def dedupeAux : List DKey → List CItem → List CItem
  | _, [] => []
  | seen, it :: rest =>
    if dkey it ∈ seen then dedupeAux seen rest
    else it :: dedupeAux (dkey it :: seen) rest

/-- `collect.py` `_dedupe` (the helper defined inside `collect`). -/
def dedupe (l : List CItem) : List CItem :=
  dedupeAux [] l

/-- Modelled from the spec wording for the deduplicator: keep the first
occurrence of each identity key by retaining the head and discarding every
later item with the same key.  Used only to compare against `dedupe`. -/
def specDedupe : List CItem → List CItem
  | [] => []
  | x :: xs => x :: specDedupe (xs.filter (fun y => !(decide (dkey y = dkey x))))
termination_by l => l.length
decreasing_by
  simp only [List.length_cons]
  exact Nat.lt_succ_of_le (List.length_filter_le _ _)

/-- `collect.py` `collect`, lines 132–168: filter under the strict tier,
dedupe, and if the kept count is below `THRESH = 12` re-scan the raw set
under the fallback tier, merge and dedupe again.  (The subsequent sort and
`[:250]` truncation are modelled separately.) -/
def collectItems (raws : List CItem) : List CItem :=
  let items_strict := raws.filter (fun it => strict_keep (itemText it))
  let items := dedupe items_strict
  if items.length < 12 then
    dedupe (items ++ raws.filter (fun it => fallback_keep (itemText it)))
  else items

/-- A raw syndication entry as `_normalize` consumes it: every field may be
absent. -/
structure RawEntry where
  title : Option String
  link : Option String
  id : Option String
  summary : Option String
  description : Option String
  published : Option String
  updated : Option String

/-- Python `e.get(k) or d`: the default is substituted both when the field is
absent and when it is empty (falsy). -/
def pyOr (a : Option String) (d : String) : String :=
  match a with
  | none => d
  | some s => if s = "" then d else s

/-- Scan for the `>` closing a tag.  Python's `.` does not match a newline,
so a newline before the next `>` means no match starts at this `<`. -/
def findGt : List Char → Option (List Char)
  | [] => none
  | c :: rest =>
    if c = '>' then some rest
    else if c = '\n' then none
    else findGt rest

theorem findGt_some_length {l r : List Char} (h : findGt l = some r) :
    r.length < l.length := by
  induction l with
  | nil => simp [findGt] at h
  | cons c rest ih =>
    simp only [findGt] at h
    by_cases hc : c = '>'
    · simp [hc] at h
      subst h
      simp
    · by_cases hn : c = '\n'
      · simp [hc, hn] at h
      · simp [hc, hn] at h
        exact Nat.lt_succ_of_lt (ih h)

/-- Fuel-driven scanner for `re.sub(r"<.*?>", "", s)`: at each `<`, if a `>`
closes the tag before any newline the whole tag is dropped, otherwise the
`<` is kept and scanning resumes after it.  The fuel only bounds recursion
depth; `stripFuel_congr` shows any fuel at least the list length agrees. -/
def stripFuel : Nat → List Char → List Char
  | 0, l => l
  | _ + 1, [] => []
  | n + 1, c :: rest =>
    if c = '<' then
      match findGt rest with
      | some r => stripFuel n r
      | none => c :: stripFuel n rest
    else c :: stripFuel n rest

theorem stripFuel_congr : ∀ (n : Nat), ∀ (m : Nat) (l : List Char),
    l.length ≤ n → l.length ≤ m → stripFuel n l = stripFuel m l := by
  intro n
  induction n with
  | zero =>
    intro m l hn _
    have hnil : l = [] := List.eq_nil_of_length_eq_zero (Nat.le_zero.mp hn)
    subst hnil
    cases m <;> rfl
  | succ n ih =>
    intro m l hn hm
    cases l with
    | nil => cases m <;> rfl
    | cons c rest =>
      cases m with
      | zero => simp at hm
      | succ m =>
        simp only [List.length_cons] at hn hm
        simp only [stripFuel]
        by_cases hc : c = '<'
        · rw [if_pos hc, if_pos hc]
          cases hfind : findGt rest with
          | some r =>
            have hlen := findGt_some_length hfind
            exact ih m r (by omega) (by omega)
          | none =>
            rw [ih m rest (by omega) (by omega)]
        · rw [if_neg hc, if_neg hc, ih m rest (by omega) (by omega)]

/-- The tag-stripping pass itself. -/
def stripHtmlAux (l : List Char) : List Char :=
  stripFuel l.length l

/-- `collect.py` `_strip_html`. -/
def strip_html (s : String) : String :=
  ⟨stripHtmlAux s.data⟩

/-- Python slicing `s[:n]`: the first `n` characters. -/
def strTake (s : String) (n : Nat) : String :=
  ⟨s.data.take n⟩

/-- `collect.py` `_normalize`. -/
def _normalize (feed_name feed_url : String) (e : RawEntry) : CItem :=
  { source := feed_name
    source_url := feed_url
    title := pyStrip (pyOr e.title "")
    link := pyOr e.link (pyOr e.id "")
    summary := strTake (strip_html (pyStrip (pyOr e.summary (pyOr e.description "")))) 400
    published := pyOr e.published (pyOr e.updated "") }

/-- Does the text still contain a substring matched by the tag rule
`<.*?>` (a `<`, then a `>` before any newline)? -/
def hasTag : List Char → Bool
  | [] => false
  | c :: rest =>
    if c = '<' then (findGt rest).isSome || hasTag rest
    else hasTag rest

/-- The item record produced by `server.py`'s `_norm`.  The numeric
timestamp `_ts` (a float from `time.mktime`, `0` when no structured date is
available) is modelled as a natural number, which preserves its ordering. -/
structure SItem where
  source : String
  source_url : String
  domain : String
  title : String
  link : String
  summary : String
  published : String
  whenLabel : String
  ts : Nat
  txt : String
deriving DecidableEq, Repr

/-- Identity key of `server.py`'s `_dedupe` (same rule as in `collect.py`). -/
def skey (it : SItem) : DKey :=
  if it.link = "" then DKey.pair it.title it.source else DKey.link it.link

/-- Single pass of the server `_dedupe` with its seen-key set. -/
def sdedupeAux : List DKey → List SItem → List SItem
  | _, [] => []
  | seen, it :: rest =>
    if skey it ∈ seen then sdedupeAux seen rest
    else it :: sdedupeAux (skey it :: seen) rest

/-- `server.py` `_dedupe`. -/
def sdedupe (l : List SItem) : List SItem :=
  sdedupeAux [] l

/-- Bool prefix test on character lists. -/
def isPrefixB : List Char → List Char → Bool
  | [], _ => true
  | _ :: _, [] => false
  | a :: as, b :: bs => a == b && isPrefixB as bs

/-- Bool substring test (needle, haystack). -/
def substrB (n : List Char) : List Char → Bool
  | [] => isPrefixB n []
  | c :: rest => isPrefixB n (c :: rest) || substrB n rest

/-- Python `needle in hay` on strings. -/
def pyIn (needle hay : String) : Bool :=
  substrB needle.data hay.data

/-- `server.py` POS_STRONG. -/
def POS_STRONG : List String :=
  ["gamecocks", "shane beamer", "williams-brice", "gamecockcentral", "spurs up"]

/-- `server.py` POS_FB. -/
def POS_FB : List String :=
  ["football", "cfb", "sec", "depth chart", "spring game", "recruit", "commit",
   "transfer portal", "qb", "quarterback", "wide receiver", "defense", "offense",
   "coach", "coaching", "gameday"]

/-- `server.py` NEG_UNC (note the trailing space in the third token). -/
def NEG_UNC : List String :=
  ["north carolina", "tar heels", "unc "]

/-- `server.py` NEG_TROJANS. -/
def NEG_TROJANS : List String :=
  ["usc trojans", "lincoln riley", "southern cal", "so cal"]

/-- `server.py` NEG_OTHER_SPORTS (first token built without an apostrophe
literal). -/
def NEG_OTHER_SPORTS : List String :=
  ["women" ++ String.singleton apos ++ "s", "wbb", "basketball", "baseball",
   "softball", "volleyball", "soccer", "track", "golf"]

/-- `server.py` `_is_sc_football`: plain substring checks over the
pre-lowercased `_txt` field. -/
def is_sc_football (txt : String) : Bool :=
  if NEG_OTHER_SPORTS.any (fun n => pyIn n txt) then false
  else if pyIn "usc" txt && NEG_TROJANS.any (fun t => pyIn t txt) then false
  else if NEG_UNC.any (fun n => pyIn n txt)
      && (!(pyIn "south carolina" txt) && !(pyIn "gamecocks" txt)) then false
  else if POS_STRONG.any (fun p => pyIn p txt) then true
  else if pyIn "south carolina" txt || pyIn "gamecocks" txt then
    POS_FB.any (fun p => pyIn p txt) || pyIn "football" txt
  else if pyIn "usc" txt then
    POS_FB.any (fun p => pyIn p txt) && !(NEG_TROJANS.any (fun t => pyIn t txt))
  else false

/-- Python lexicographic `<` on strings, as character lists (code-point
order, shorter prefix first). -/
def listCharLt : List Char → List Char → Bool
  | [], [] => false
  | [], _ :: _ => true
  | _ :: _, [] => false
  | a :: as, b :: bs => decide (a < b) || (a == b && listCharLt as bs)

/-- Python `<` on the sort key tuples `(ts, published)` of `fetch_now`. -/
def keyLt (a b : Nat × List Char) : Bool :=
  decide (a.1 < b.1) || (a.1 == b.1 && listCharLt a.2 b.2)

/-- The sort key of `server.py` line 209:
`key=lambda x: (x.get("_ts", 0), x.get("published", ""))`. -/
def rkey (it : SItem) : Nat × List Char :=
  (it.ts, it.published.data)

/-- Stable descending insertion: the element being inserted arrived earlier
in the input than everything already in the list, so on an exact key tie it
is placed first — the tie behavior of Python's stable `sort` with
`reverse=True`. -/
def insertD (x : SItem) : List SItem → List SItem
  | [] => [x]
  | y :: ys => if keyLt (rkey x) (rkey y) then y :: insertD x ys else x :: y :: ys

/-- Stable sort by descending `(ts, published)` key, the effect of
`kept.sort(key=..., reverse=True)` in `fetch_now`. -/
def sortD : List SItem → List SItem
  | [] => []
  | x :: xs => insertD x (sortD xs)

/-- `server.py` `fetch_now` publishing step (lines 208–213): the global
`ITEMS` is unconditionally replaced by the classified, deduplicated, sorted
and truncated result of this cycle; the previous snapshot is not consulted. -/
def fetch_now_publish (prevITEMS : List SItem) (raws : List SItem) : List SItem :=
  (sortD (sdedupe (raws.filter (fun it => is_sc_football it.txt)))).take 250

/-! ### Deduplicator lemmas -/

theorem dedupeAux_sublist : ∀ (seen : List DKey) (l : List CItem),
    List.Sublist (dedupeAux seen l) l
  | _, [] => List.Sublist.refl []
  | seen, it :: rest => by
    by_cases h : dkey it ∈ seen
    · simp only [dedupeAux, if_pos h]
      exact List.Sublist.trans (dedupeAux_sublist seen rest) (List.sublist_cons_self it rest)
    · simp only [dedupeAux, if_neg h]
      exact List.Sublist.cons₂ it (dedupeAux_sublist _ rest)

theorem mem_of_mem_dedupe {x : CItem} {l : List CItem} (h : x ∈ dedupe l) : x ∈ l :=
  (dedupeAux_sublist [] l).subset h

theorem filter_keys_cons (k : DKey) (seen : List DKey) (rest : List CItem) :
    rest.filter (fun y => !(decide (dkey y ∈ k :: seen)))
      = (rest.filter (fun y => !(decide (dkey y ∈ seen)))).filter
          (fun y => !(decide (dkey y = k))) := by
  rw [List.filter_filter]
  apply List.filter_congr
  intro y _
  by_cases h1 : dkey y = k <;> by_cases h2 : dkey y ∈ seen <;>
    simp [List.mem_cons, h1, h2]

theorem dedupeAux_eq_spec : ∀ (l : List CItem) (seen : List DKey),
    dedupeAux seen l = specDedupe (l.filter (fun y => !(decide (dkey y ∈ seen))))
  | [], _ => by simp [dedupeAux, specDedupe]
  | it :: rest, seen => by
    by_cases h : dkey it ∈ seen
    · rw [List.filter_cons_of_neg (by simp [h])]
      simp only [dedupeAux, if_pos h]
      exact dedupeAux_eq_spec rest seen
    · rw [List.filter_cons_of_pos (by simp [h])]
      simp only [dedupeAux, if_neg h]
      rw [specDedupe, dedupeAux_eq_spec rest (dkey it :: seen), filter_keys_cons]

theorem dedupe_eq_spec (l : List CItem) : dedupe l = specDedupe l := by
  rw [dedupe, dedupeAux_eq_spec l []]
  congr 1
  apply List.filter_eq_self.mpr
  intro a _
  simp

theorem dedupeAux_keys : ∀ (l : List CItem) (seen : List DKey),
    ((dedupeAux seen l).map dkey).Nodup ∧
      ∀ k ∈ (dedupeAux seen l).map dkey, k ∉ seen
  | [], seen => by simp [dedupeAux]
  | it :: rest, seen => by
    by_cases h : dkey it ∈ seen
    · simpa [dedupeAux, h] using dedupeAux_keys rest seen
    · have ih := dedupeAux_keys rest (dkey it :: seen)
      simp only [dedupeAux, if_neg h, List.map_cons, List.nodup_cons]
      refine ⟨⟨?_, ih.1⟩, ?_⟩
      · intro hmem
        exact (ih.2 _ hmem) (List.mem_cons_self _ _)
      · intro k hk
        rcases List.mem_cons.mp hk with rfl | hk2
        · exact h
        · intro hks
          exact (ih.2 _ hk2) (List.mem_cons_of_mem _ hks)

/-! ### Collection-cycle lemmas -/

theorem collectItems_low (raws : List CItem)
    (h : (dedupe (raws.filter (fun it => strict_keep (itemText it)))).length < 12) :
    collectItems raws
      = dedupe (dedupe (raws.filter (fun it => strict_keep (itemText it)))
          ++ raws.filter (fun it => fallback_keep (itemText it))) := by
  simp only [collectItems]
  rw [if_pos h]

theorem collectItems_high (raws : List CItem)
    (h : ¬ (dedupe (raws.filter (fun it => strict_keep (itemText it)))).length < 12) :
    collectItems raws = dedupe (raws.filter (fun it => strict_keep (itemText it))) := by
  simp only [collectItems]
  rw [if_neg h]

theorem collectItems_tier (raws : List CItem) :
    (collectItems raws).all
      (fun it => strict_keep (itemText it) || fallback_keep (itemText it)) = true := by
  rw [List.all_eq_true]
  intro it hit
  simp only [collectItems] at hit
  split at hit
  · have h1 := mem_of_mem_dedupe hit
    rcases List.mem_append.mp h1 with h2 | h2
    · have h3 := (List.mem_filter.mp (mem_of_mem_dedupe h2)).2
      simp [h3]
    · have h3 := (List.mem_filter.mp h2).2
      simp [h3]
  · have h3 := (List.mem_filter.mp (mem_of_mem_dedupe hit)).2
    simp [h3]

theorem collectItems_nodup_keys (raws : List CItem) :
    ((collectItems raws).map dkey).Nodup := by
  simp only [collectItems]
  split
  · exact (dedupeAux_keys _ []).1
  · exact (dedupeAux_keys _ []).1

/-! ### Sort-key order lemmas -/

theorem listCharLt_cons_iff {x y : Char} {as bs : List Char} :
    listCharLt (x :: as) (y :: bs) = true
      ↔ x < y ∨ (x = y ∧ listCharLt as bs = true) := by
  simp [listCharLt, Bool.or_eq_true, Bool.and_eq_true]

theorem listCharLt_irrefl : ∀ a : List Char, listCharLt a a = false
  | [] => rfl
  | c :: as => by
    rw [← Bool.not_eq_true, listCharLt_cons_iff]
    simp [listCharLt_irrefl as]

theorem listCharLt_asymm : ∀ (a b : List Char),
    listCharLt a b = true → listCharLt b a = false
  | [], [], h => by simp [listCharLt] at h
  | [], _ :: _, _ => rfl
  | _ :: _, [], h => by simp [listCharLt] at h
  | x :: as, y :: bs, h => by
    rw [← Bool.not_eq_true, listCharLt_cons_iff]
    rw [listCharLt_cons_iff] at h
    rintro (hb | ⟨rfl, hb2⟩)
    · rcases h with h | ⟨rfl, _⟩
      · exact absurd hb (lt_asymm h)
      · exact absurd hb (lt_irrefl _)
    · rcases h with h | ⟨_, h2⟩
      · exact absurd h (lt_irrefl _)
      · rw [listCharLt_asymm as bs h2] at hb2
        cases hb2

theorem listCharLt_conn : ∀ (a b : List Char),
    listCharLt a b = false → listCharLt b a = false → a = b
  | [], [], _, _ => rfl
  | [], _ :: _, h, _ => by simp [listCharLt] at h
  | _ :: _, [], _, h => by simp [listCharLt] at h
  | x :: as, y :: bs, h1, h2 => by
    have h1p : ¬ (x < y ∨ (x = y ∧ listCharLt as bs = true)) := by
      rw [← listCharLt_cons_iff]
      simp [h1]
    have h2p : ¬ (y < x ∨ (y = x ∧ listCharLt bs as = true)) := by
      rw [← listCharLt_cons_iff]
      simp [h2]
    push_neg at h1p h2p
    have hxy : x = y := le_antisymm h2p.1 h1p.1
    subst hxy
    have e1 : listCharLt as bs = false := by
      cases hc : listCharLt as bs
      · rfl
      · exact absurd hc (h1p.2 rfl)
    have e2 : listCharLt bs as = false := by
      cases hc : listCharLt bs as
      · rfl
      · exact absurd hc (h2p.2 rfl)
    rw [listCharLt_conn as bs e1 e2]

theorem listCharLt_trans : ∀ (a b c : List Char),
    listCharLt a b = true → listCharLt b c = true → listCharLt a c = true
  | [], [], _, h, _ => by simp [listCharLt] at h
  | _ :: _, [], _, h, _ => by simp [listCharLt] at h
  | [], _ :: _, [], _, h2 => by simp [listCharLt] at h2
  | [], _ :: _, _ :: _, _, _ => rfl
  | _ :: _, _ :: _, [], _, h2 => by simp [listCharLt] at h2
  | x :: as, y :: bs, z :: cs, h1, h2 => by
    rw [listCharLt_cons_iff] at h1 h2 ⊢
    rcases h1 with h1 | ⟨rfl, h1t⟩
    · rcases h2 with h2 | ⟨rfl, _⟩
      · exact Or.inl (lt_trans h1 h2)
      · exact Or.inl h1
    · rcases h2 with h2 | ⟨rfl, h2t⟩
      · exact Or.inl h2
      · exact Or.inr ⟨rfl, listCharLt_trans as bs cs h1t h2t⟩

theorem keyLt_iff {a b : Nat × List Char} :
    keyLt a b = true ↔ a.1 < b.1 ∨ (a.1 = b.1 ∧ listCharLt a.2 b.2 = true) := by
  simp [keyLt, Bool.or_eq_true, Bool.and_eq_true]

theorem keyLt_irrefl (a : Nat × List Char) : keyLt a a = false := by
  rw [← Bool.not_eq_true, keyLt_iff]
  simp [listCharLt_irrefl]

theorem keyLt_asymm (a b : Nat × List Char) (h : keyLt a b = true) :
    keyLt b a = false := by
  rw [← Bool.not_eq_true, keyLt_iff]
  rw [keyLt_iff] at h
  rintro (hb | ⟨he, hb2⟩)
  · rcases h with h | ⟨he2, _⟩
    · exact absurd hb (lt_asymm h)
    · exact absurd hb (he2 ▸ lt_irrefl _)
  · rcases h with h | ⟨_, h2⟩
    · exact absurd h (he ▸ lt_irrefl _)
    · rw [listCharLt_asymm _ _ h2] at hb2
      cases hb2

theorem keyLt_trans (a b c : Nat × List Char)
    (h1 : keyLt a b = true) (h2 : keyLt b c = true) : keyLt a c = true := by
  rw [keyLt_iff] at h1 h2 ⊢
  rcases h1 with h1 | ⟨he1, ht1⟩
  · rcases h2 with h2 | ⟨he2, _⟩
    · exact Or.inl (lt_trans h1 h2)
    · exact Or.inl (he2 ▸ h1)
  · rcases h2 with h2 | ⟨he2, ht2⟩
    · exact Or.inl (he1 ▸ h2)
    · exact Or.inr ⟨he1.trans he2, listCharLt_trans _ _ _ ht1 ht2⟩

theorem keyLt_conn (a b : Nat × List Char)
    (h1 : keyLt a b = false) (h2 : keyLt b a = false) : a = b := by
  have h1p : ¬ (a.1 < b.1 ∨ (a.1 = b.1 ∧ listCharLt a.2 b.2 = true)) := by
    rw [← keyLt_iff]
    simp [h1]
  have h2p : ¬ (b.1 < a.1 ∨ (b.1 = a.1 ∧ listCharLt b.2 a.2 = true)) := by
    rw [← keyLt_iff]
    simp [h2]
  push_neg at h1p h2p
  have he : a.1 = b.1 := le_antisymm h2p.1 h1p.1
  have e1 : listCharLt a.2 b.2 = false := by
    cases hc : listCharLt a.2 b.2
    · rfl
    · exact absurd hc (h1p.2 he)
  have e2 : listCharLt b.2 a.2 = false := by
    cases hc : listCharLt b.2 a.2
    · rfl
    · exact absurd hc (h2p.2 he.symm)
  exact Prod.ext he (listCharLt_conn _ _ e1 e2)

theorem keyLt_neg_trans {a b c : Nat × List Char}
    (h1 : keyLt a b = false) (h2 : keyLt b c = false) : keyLt a c = false := by
  cases hac : keyLt a c
  · rfl
  · exfalso
    cases hba : keyLt b a
    · have := keyLt_conn a b h1 hba
      subst this
      rw [hac] at h2
      cases h2
    · have := keyLt_trans b a c hba hac
      rw [this] at h2
      cases h2

/-! ### Stable descending sort lemmas -/

theorem insertD_perm (x : SItem) : ∀ l, List.Perm (insertD x l) (x :: l)
  | [] => List.Perm.refl _
  | y :: ys => by
    by_cases h : keyLt (rkey x) (rkey y) = true
    · simp only [insertD, if_pos h]
      exact List.Perm.trans (List.Perm.cons y (insertD_perm x ys))
        (List.Perm.swap x y ys)
    · simp only [insertD, if_neg h]
      exact List.Perm.refl _

theorem sortD_perm : ∀ l, List.Perm (sortD l) l
  | [] => List.Perm.refl _
  | x :: xs =>
    List.Perm.trans (insertD_perm x (sortD xs)) (List.Perm.cons x (sortD_perm xs))

theorem mem_insertD {z x : SItem} {l : List SItem} :
    z ∈ insertD x l ↔ z = x ∨ z ∈ l := by
  rw [(insertD_perm x l).mem_iff, List.mem_cons]

/-- Descending sortedness under the `(ts, published)` key. -/
def SortedD (l : List SItem) : Prop :=
  List.Pairwise (fun a b => keyLt (rkey a) (rkey b) = false) l

theorem insertD_sorted (x : SItem) : ∀ (l : List SItem),
    SortedD l → SortedD (insertD x l)
  | [], _ => List.Pairwise.cons (by simp) List.Pairwise.nil
  | y :: ys, hs => by
    rcases List.pairwise_cons.mp hs with ⟨hy, hys⟩
    by_cases h : keyLt (rkey x) (rkey y) = true
    · simp only [insertD, if_pos h]
      refine List.pairwise_cons.mpr ⟨?_, insertD_sorted x ys hys⟩
      intro z hz
      rcases mem_insertD.mp hz with rfl | hz2
      · exact keyLt_asymm _ _ h
      · exact hy z hz2
    · simp only [insertD, if_neg h]
      have hxy : keyLt (rkey x) (rkey y) = false := by
        cases hc : keyLt (rkey x) (rkey y)
        · rfl
        · exact absurd hc h
      refine List.pairwise_cons.mpr ⟨?_, hs⟩
      intro z hz
      rcases List.mem_cons.mp hz with rfl | hz2
      · exact hxy
      · exact keyLt_neg_trans hxy (hy z hz2)

theorem sortD_sorted : ∀ l, SortedD (sortD l)
  | [] => List.Pairwise.nil
  | x :: xs => insertD_sorted x (sortD xs) (sortD_sorted xs)

theorem insertD_filter_key (x : SItem) (v : Nat × List Char) :
    ∀ l, (insertD x l).filter (fun it => decide (rkey it = v))
      = ((x :: l).filter (fun it => decide (rkey it = v)))
  | [] => rfl
  | y :: ys => by
    by_cases h : keyLt (rkey x) (rkey y) = true
    · simp only [insertD, if_pos h]
      by_cases hx : rkey x = v
      · have hy : ¬ rkey y = v := by
          intro he
          rw [hx, ← he] at h
          rw [keyLt_irrefl] at h
          cases h
        rw [List.filter_cons_of_neg (by simp [hy]),
          insertD_filter_key x v ys,
          List.filter_cons_of_pos (by simp [hx]),
          List.filter_cons_of_pos (by simp [hx]),
          List.filter_cons_of_neg (by simp [hy])]
      · by_cases hy : rkey y = v
        · rw [List.filter_cons_of_pos (by simp [hy]),
            insertD_filter_key x v ys,
            List.filter_cons_of_neg (by simp [hx]),
            List.filter_cons_of_neg (by simp [hx]),
            List.filter_cons_of_pos (by simp [hy])]
        · rw [List.filter_cons_of_neg (by simp [hy]),
            insertD_filter_key x v ys,
            List.filter_cons_of_neg (by simp [hx]),
            List.filter_cons_of_neg (by simp [hx]),
            List.filter_cons_of_neg (by simp [hy])]
    · simp only [insertD, if_neg h]

theorem sortD_filter_key (v : Nat × List Char) :
    ∀ l, (sortD l).filter (fun it => decide (rkey it = v))
      = l.filter (fun it => decide (rkey it = v))
  | [] => rfl
  | x :: xs => by
    simp only [sortD]
    rw [insertD_filter_key x v (sortD xs)]
    by_cases hx : rkey x = v
    · rw [List.filter_cons_of_pos (by simp [hx]),
        List.filter_cons_of_pos (by simp [hx]), sortD_filter_key v xs]
    · rw [List.filter_cons_of_neg (by simp [hx]),
        List.filter_cons_of_neg (by simp [hx]), sortD_filter_key v xs]

/-! ### Normalizer lemmas -/

theorem findGt_cons_ne {c : Char} {rest : List Char} (hgt : c ≠ '>') (hnl : c ≠ '\n') :
    findGt (c :: rest) = findGt rest := by
  simp [findGt, hgt, hnl]

theorem strip_cons_lt_some {rest r : List Char} (h : findGt rest = some r) :
    stripHtmlAux ('<' :: rest) = stripHtmlAux r := by
  show stripFuel ('<' :: rest).length ('<' :: rest) = stripFuel r.length r
  rw [List.length_cons]
  simp only [stripFuel, if_pos rfl, h]
  exact stripFuel_congr rest.length r.length r
    (Nat.le_of_lt (findGt_some_length h)) le_rfl

theorem strip_cons_lt_none {rest : List Char} (h : findGt rest = none) :
    stripHtmlAux ('<' :: rest) = '<' :: stripHtmlAux rest := by
  show stripFuel ('<' :: rest).length ('<' :: rest) = '<' :: stripFuel rest.length rest
  rw [List.length_cons]
  simp only [stripFuel, if_pos rfl, h, ite_self]

theorem strip_cons_ne {c : Char} {rest : List Char} (h : c ≠ '<') :
    stripHtmlAux (c :: rest) = c :: stripHtmlAux rest := by
  show stripFuel (c :: rest).length (c :: rest) = c :: stripFuel rest.length rest
  rw [List.length_cons]
  simp only [stripFuel, if_neg h]

theorem hasTag_cons_lt (rest : List Char) :
    hasTag ('<' :: rest) = ((findGt rest).isSome || hasTag rest) := by
  simp [hasTag]

theorem hasTag_cons_ne {c : Char} {rest : List Char} (h : c ≠ '<') :
    hasTag (c :: rest) = hasTag rest := by
  simp [hasTag, h]

theorem findGt_none_strip : ∀ (l : List Char),
    findGt l = none → findGt (stripHtmlAux l) = none
  | [], _ => by simp [stripHtmlAux, findGt]
  | c :: rest, h => by
    by_cases hgt : c = '>'
    · rw [hgt] at h
      simp [findGt] at h
    · by_cases hnl : c = '\n'
      · subst hnl
        rw [strip_cons_ne (by decide)]
        simp [findGt]
      · rw [findGt_cons_ne hgt hnl] at h
        by_cases hc : c = '<'
        · subst hc
          rw [strip_cons_lt_none h, findGt_cons_ne (by decide) (by decide)]
          exact findGt_none_strip rest h
        · rw [strip_cons_ne hc, findGt_cons_ne hgt hnl]
          exact findGt_none_strip rest h

theorem hasTag_strip_fuel : ∀ (n : Nat) (l : List Char),
    l.length ≤ n → hasTag (stripHtmlAux l) = false := by
  intro n
  induction n with
  | zero =>
    intro l hl
    have hnil : l = [] := List.eq_nil_of_length_eq_zero (Nat.le_zero.mp hl)
    subst hnil
    simp [stripHtmlAux, hasTag]
  | succ n ih =>
    intro l hl
    match l with
    | [] => simp [stripHtmlAux, hasTag]
    | c :: rest =>
      have hr : rest.length ≤ n := by
        simp only [List.length_cons] at hl
        omega
      by_cases hc : c = '<'
      · subst hc
        cases hfind : findGt rest with
        | some r =>
          rw [strip_cons_lt_some hfind]
          have hlen := findGt_some_length hfind
          exact ih r (by omega)
        | none =>
          rw [strip_cons_lt_none hfind, hasTag_cons_lt,
            findGt_none_strip rest hfind]
          simp [ih rest hr]
      · rw [strip_cons_ne hc, hasTag_cons_ne hc]
        exact ih rest hr

theorem hasTag_strip (l : List Char) : hasTag (stripHtmlAux l) = false :=
  hasTag_strip_fuel l.length l le_rfl

theorem findGt_none_take : ∀ (l : List Char) (n : Nat),
    findGt l = none → findGt (l.take n) = none
  | [], _, _ => by simp [findGt]
  | _ :: _, 0, _ => by simp [findGt]
  | c :: rest, n + 1, h => by
    rw [List.take_succ_cons]
    by_cases hgt : c = '>'
    · rw [hgt] at h
      simp [findGt] at h
    · by_cases hnl : c = '\n'
      · subst hnl
        simp [findGt]
      · rw [findGt_cons_ne hgt hnl] at h
        rw [findGt_cons_ne hgt hnl]
        exact findGt_none_take rest n h

theorem hasTag_take : ∀ (l : List Char) (n : Nat),
    hasTag l = false → hasTag (l.take n) = false
  | [], _, _ => by simp [hasTag]
  | _ :: _, 0, _ => by simp [hasTag]
  | c :: rest, n + 1, h => by
    rw [List.take_succ_cons]
    by_cases hc : c = '<'
    · subst hc
      rw [hasTag_cons_lt] at h
      have h1 : (findGt rest).isSome = false := by
        cases hor : (findGt rest).isSome
        · rfl
        · rw [hor] at h
          simp at h
      have h2 : hasTag rest = false := by
        cases hor : hasTag rest
        · rfl
        · rw [hor] at h
          simp at h
      have hnone : findGt rest = none := by
        cases hf : findGt rest
        · rfl
        · rw [hf] at h1
          simp at h1
      rw [hasTag_cons_lt, findGt_none_take rest n hnone]
      simp [hasTag_take rest n h2]
    · rw [hasTag_cons_ne hc] at h
      rw [hasTag_cons_ne hc]
      exact hasTag_take rest n h

/-! ### Concrete items used by witnesses and counterexamples -/

/-- A raw item from an aggregator feed whose text matches no tier. -/
def rawAggregatorOff : CItem :=
  { source := "Google News"
    source_url := "https://news.google.com/rss/search?q=gamecocks"
    title := "zzz headline"
    link := "https://example.com/z1"
    summary := ""
    published := "" }

/-- A raw item kept by the strict tier. -/
def rawStrictKept : CItem :=
  { source := "Google News"
    source_url := "https://news.google.com/rss"
    title := "shane beamer previews the spring game"
    link := "https://example.com/b1"
    summary := ""
    published := "" }

/-- A previously published snapshot item for the server state. -/
def prevSnapshotItem : SItem :=
  { source := "ESPN CFB"
    source_url := "https://www.espn.com/espn/rss/ncf/news"
    domain := "example.com"
    title := "gamecocks top tigers"
    link := "https://example.com/old"
    summary := "recap"
    published := "Mon, 01 Jan 2024 10:00:00 GMT"
    whenLabel := "Jan 1"
    ts := 1704103200
    txt := "gamecocks top tigers recap" }

/-- A raw feed entry with every field absent. -/
def rawAllNone : RawEntry :=
  ⟨none, none, none, none, none, none, none⟩

/-! ### Claim theorems -/

/-- C1, counterexample.  The claim asserts a safety-net stage: when the kept
count is still below 6, every raw item whose `source_url` contains an
aggregator domain fragment is added unconditionally.  `collect.py` has no
such stage: here the kept count is 0 (below 6) and the single raw item's
`source_url` contains the fragment `news.google`, yet the result is empty. -/
theorem c1_no_safety_net_counterexample :
    (collectItems [rawAggregatorOff]).length < 6 ∧
    pyIn "news.google" rawAggregatorOff.source_url = true ∧
    collectItems [rawAggregatorOff] = [] := by
  refine ⟨?_, ?_, ?_⟩ <;> decide

/-- C1, amended.  During a collection cycle, if the deduplicated strict-tier
kept count is below the single threshold 12, the full raw entry set is
re-scanned under the fallback tier and the results merged and deduplicated
(key-distinct output); otherwise the deduplicated strict set is used as is.
There is no second threshold and no safety net: every collected item passes
the strict or the fallback tier. -/
theorem c1_fallback_population (raws : List CItem) :
    ((dedupe (raws.filter (fun it => strict_keep (itemText it)))).length < 12 →
      collectItems raws
        = dedupe (dedupe (raws.filter (fun it => strict_keep (itemText it)))
            ++ raws.filter (fun it => fallback_keep (itemText it)))) ∧
    (¬ (dedupe (raws.filter (fun it => strict_keep (itemText it)))).length < 12 →
      collectItems raws = dedupe (raws.filter (fun it => strict_keep (itemText it)))) ∧
    (collectItems raws).all
      (fun it => strict_keep (itemText it) || fallback_keep (itemText it)) = true ∧
    ((collectItems raws).map dkey).Nodup :=
  ⟨collectItems_low raws, collectItems_high raws, collectItems_tier raws,
    collectItems_nodup_keys raws⟩

/-- C1, witness for the amended theorem at a concrete one-item raw set. -/
theorem c1_fallback_population_witness :
    (dedupe ([rawStrictKept].filter (fun it => strict_keep (itemText it)))).length < 12 ∧
    collectItems [rawStrictKept]
      = dedupe (dedupe ([rawStrictKept].filter (fun it => strict_keep (itemText it)))
          ++ [rawStrictKept].filter (fun it => fallback_keep (itemText it))) :=
  ⟨by decide, (c1_fallback_population [rawStrictKept]).1 (by decide)⟩

/-- C2 (confirmed).  Any text matched by an EXCLUDE_OTHER_SPORTS pattern is
rejected by both the strict tier and the fallback tier: the exclusion check
runs first and short-circuits, regardless of any other matches. -/
theorem c2_exclusion_precedence (text : String)
    (hexc : matchesAny EXCLUDE_OTHER_SPORTS text = true) :
    strict_keep text = false ∧ fallback_keep text = false := by
  constructor
  · simp [strict_keep, hexc]
  · simp [fallback_keep, hexc]

/-- C2, witness: a text matching both an exclusion pattern and a strong
signal is still rejected by both tiers. -/
theorem c2_exclusion_precedence_witness :
    matchesAny EXCLUDE_OTHER_SPORTS "gamecocks basketball game" = true ∧
    matchesAny STRONG_ANY "gamecocks basketball game" = true ∧
    strict_keep "gamecocks basketball game" = false ∧
    fallback_keep "gamecocks basketball game" = false :=
  ⟨by decide, by decide,
    (c2_exclusion_precedence _ (by decide)).1,
    (c2_exclusion_precedence _ (by decide)).2⟩

/-- C3, counterexample.  The claim asserts NEGATIVE_USC matches reject
regardless of other matches under both tiers; but `_strict_keep` tests
STRONG_ANY before NEGATIVE_USC, so this text with both a strong signal and
the mascot token is kept by the strict tier. -/
theorem c3_negative_counterexample :
    matchesAny NEGATIVE_USC "gamecocks outlast the trojans" = true ∧
    strict_keep "gamecocks outlast the trojans" = true :=
  ⟨by decide, by decide⟩

/-- C3, amended.  A NEGATIVE_DISAMBIGUATION match rejects the text under the
fallback tier regardless of other matches; under the strict tier it rejects
whenever no STRONG_SIGNAL token matches (the strong-signal check precedes
the negative check).  In particular text with only the ambiguous acronym
plus the mascot is rejected under both tiers. -/
theorem c3_negative_disambiguation (text : String)
    (hneg : matchesAny NEGATIVE_USC text = true) :
    fallback_keep text = false ∧
      (matchesAny STRONG_ANY text = false → strict_keep text = false) := by
  constructor
  · by_cases he : matchesAny EXCLUDE_OTHER_SPORTS text
    · simp [fallback_keep, he]
    · simp [fallback_keep, he, hneg]
  · intro hs
    by_cases he : matchesAny EXCLUDE_OTHER_SPORTS text
    · simp [strict_keep, he]
    · simp [strict_keep, he, hs, hneg]

/-- C3, witness: only the ambiguous acronym plus the mascot; rejected under
both tiers. -/
theorem c3_negative_disambiguation_witness :
    matchesAny NEGATIVE_USC "usc trojans rally past rival" = true ∧
    matchesAny STRONG_ANY "usc trojans rally past rival" = false ∧
    fallback_keep "usc trojans rally past rival" = false ∧
    strict_keep "usc trojans rally past rival" = false :=
  ⟨by decide, by decide,
    (c3_negative_disambiguation _ (by decide)).1,
    (c3_negative_disambiguation _ (by decide)).2 (by decide)⟩

/-- C4 (confirmed).  Any text matching a STRONG_SIGNAL token and no
EXCLUDE_OTHER_SPORTS token is kept by the strict tier, regardless of any
other content. -/
theorem c4_strong_signal_sufficient (text : String)
    (hstrong : matchesAny STRONG_ANY text = true)
    (hexc : matchesAny EXCLUDE_OTHER_SPORTS text = false) :
    strict_keep text = true := by
  simp [strict_keep, hexc, hstrong]

/-- C4, witness. -/
theorem c4_strong_signal_sufficient_witness :
    matchesAny STRONG_ANY "shane beamer addresses the media" = true ∧
    matchesAny EXCLUDE_OTHER_SPORTS "shane beamer addresses the media" = false ∧
    strict_keep "shane beamer addresses the media" = true :=
  ⟨by decide, by decide,
    c4_strong_signal_sufficient _ (by decide) (by decide)⟩

/-- C5 (confirmed).  Text with a state-name/acronym token but no strong
signal, no exclusion, no negative disambiguation, and no topic context is
rejected by the strict tier and kept by the fallback tier. -/
theorem c5_fallback_relaxation (text : String)
    (hsc : matchesAny SC_OR_USC text = true)
    (hstrong : matchesAny STRONG_ANY text = false)
    (hexc : matchesAny EXCLUDE_OTHER_SPORTS text = false)
    (hneg : matchesAny NEGATIVE_USC text = false)
    (hctx : matchesAny FOOTBALL_TERMS text = false) :
    strict_keep text = false ∧ fallback_keep text = true := by
  constructor
  · simp [strict_keep, hexc, hstrong, hsc, hneg, hctx]
  · simp [fallback_keep, hexc, hstrong, hsc, hneg]

/-- C5, witness: the spec's own example sentence. -/
theorem c5_fallback_relaxation_witness :
    matchesAny SC_OR_USC "south carolina sees record tourism numbers" = true ∧
    matchesAny STRONG_ANY "south carolina sees record tourism numbers" = false ∧
    matchesAny EXCLUDE_OTHER_SPORTS "south carolina sees record tourism numbers" = false ∧
    matchesAny NEGATIVE_USC "south carolina sees record tourism numbers" = false ∧
    matchesAny FOOTBALL_TERMS "south carolina sees record tourism numbers" = false ∧
    strict_keep "south carolina sees record tourism numbers" = false ∧
    fallback_keep "south carolina sees record tourism numbers" = true :=
  ⟨by decide, by decide, by decide, by decide, by decide,
    (c5_fallback_relaxation _ (by decide) (by decide) (by decide) (by decide) (by decide)).1,
    (c5_fallback_relaxation _ (by decide) (by decide) (by decide) (by decide) (by decide)).2⟩

/-- C6 (confirmed).  The deduplicator returns exactly the subsequence of
first occurrences under the identity key (`link` when non-empty, else the
`(title, source)` pair), with exact key equality and first-seen order. -/
theorem c6_dedupe_first_occurrences (l : List CItem) :
    dedupe l = specDedupe l ∧ List.Sublist (dedupe l) l :=
  ⟨dedupe_eq_spec l, dedupeAux_sublist [] l⟩

/-- C7 (confirmed).  The ranker sorts by descending `(ts, published)` key
(`ts` is 0 when no structured date parsed), the sort is a permutation, it is
stable — items with exactly equal keys keep their original relative order —
and the published list is truncated to at most 250 items. -/
theorem c7_ranker (l prev raws : List SItem) :
    SortedD (sortD l) ∧
    List.Perm (sortD l) l ∧
    (∀ v : Nat × List Char,
      (sortD l).filter (fun it => decide (rkey it = v))
        = l.filter (fun it => decide (rkey it = v))) ∧
    (fetch_now_publish prev raws).length ≤ 250 :=
  ⟨sortD_sorted l, sortD_perm l, fun v => sortD_filter_key v l, by
    simp only [fetch_now_publish]
    exact List.length_take_le _ _⟩

/-- C8 (confirmed).  The normalizer always yields string fields (absence
becomes the empty string), the summary is markup-stripped by the non-greedy
tag rule — no `<...>` tag survives — and it is truncated to at most 400
characters after stripping. -/
theorem c8_normalizer (feed_name feed_url : String) (e : RawEntry) :
    ((_normalize feed_name feed_url e).summary).length ≤ 400 ∧
    hasTag ((_normalize feed_name feed_url e).summary).data = false ∧
    (e.title = none → (_normalize feed_name feed_url e).title = "") ∧
    (e.summary = none → e.description = none →
      (_normalize feed_name feed_url e).summary = "") ∧
    (e.published = none → e.updated = none →
      (_normalize feed_name feed_url e).published = "") := by
  refine ⟨?_, ?_, ?_, ?_, ?_⟩
  · simp only [_normalize, strTake, String.length]
    exact List.length_take_le _ _
  · simp only [_normalize, strTake, strip_html]
    exact hasTag_take _ 400 (hasTag_strip _)
  · intro h
    simp only [_normalize, pyOr, h]
    decide
  · intro h1 h2
    simp only [_normalize, pyOr, h1, h2]
    decide
  · intro h1 h2
    simp only [_normalize, pyOr, h1, h2]

/-- C8, witness at an entry with every field absent. -/
theorem c8_normalizer_witness :
    (_normalize "Feed" "https://feed" rawAllNone).title = "" ∧
    (_normalize "Feed" "https://feed" rawAllNone).summary = "" ∧
    (_normalize "Feed" "https://feed" rawAllNone).published = "" ∧
    ((_normalize "Feed" "https://feed" rawAllNone).summary).length ≤ 400 :=
  ⟨(c8_normalizer _ _ rawAllNone).2.2.1 rfl,
    (c8_normalizer _ _ rawAllNone).2.2.2.1 rfl rfl,
    (c8_normalizer _ _ rawAllNone).2.2.2.2 rfl rfl,
    (c8_normalizer _ _ rawAllNone).1⟩

/-- C9 (code bug).  On a cycle with no reachable sources (`raws = []`) the
server's publish step replaces the previous non-empty snapshot with the
empty list: `fetch_now` assigns `ITEMS = kept[:250]` unconditionally and
never consults the prior snapshot, contradicting the claim that the
previous snapshot is retained. -/
theorem c9_empty_cycle_replaces_snapshot :
    fetch_now_publish [prevSnapshotItem] [] = [] ∧
    ([prevSnapshotItem] : List SItem) ≠ [] :=
  ⟨rfl, by simp⟩

/-- C10 (confirmed).  Strict keep does not imply fallback keep: any text
with a strong signal, a negative-disambiguation token and no exclusion
token is kept by the strict tier (whose strong-signal check precedes the
negative check) but rejected by the fallback tier. -/
theorem c10_strict_not_below_fallback (text : String)
    (hstrong : matchesAny STRONG_ANY text = true)
    (hneg : matchesAny NEGATIVE_USC text = true)
    (hexc : matchesAny EXCLUDE_OTHER_SPORTS text = false) :
    strict_keep text = true ∧ fallback_keep text = false := by
  constructor
  · simp [strict_keep, hexc, hstrong]
  · simp [fallback_keep, hexc, hstrong, hneg]

/-- C10, witness: the claim's own example text. -/
theorem c10_strict_not_below_fallback_witness :
    matchesAny STRONG_ANY "gamecocks stun the trojans" = true ∧
    matchesAny NEGATIVE_USC "gamecocks stun the trojans" = true ∧
    matchesAny EXCLUDE_OTHER_SPORTS "gamecocks stun the trojans" = false ∧
    strict_keep "gamecocks stun the trojans" = true ∧
    fallback_keep "gamecocks stun the trojans" = false :=
  ⟨by decide, by decide, by decide,
    (c10_strict_not_below_fallback _ (by decide) (by decide) (by decide)).1,
    (c10_strict_not_below_fallback _ (by decide) (by decide) (by decide)).2⟩
